import Mathlib

/-!
Shallow embedding of `src/prepr/src/index.ts`, a content-synchronization
connector that pulls articles from a GraphQL CMS, flattens their content
blocks into an HTML body, and hands the resulting nodes to a host content
engine.  Network responses, the host cache, the host model API and the
clock are inputs of the embedded functions; the effects the connector
performs (fetch requests, model create/delete, cache get/set) are returned
as an explicit trace.
-/

/-- JS `String.prototype.toLowerCase` as used on the `language` field:
lowercases every character of the string. -/
def toLowerCase (s : String) : String := ⟨s.data.map Char.toLower⟩

/-- One entry of an `Assets` content block (`content { ... on Assets { items { _id, _type, url } } }`). -/
structure AssetItem where
  _id : String
  _type : String
  url : String
deriving DecidableEq

/-- One content block of an article.  The TS source discriminates
structurally: `'items' in content` (Assets), `'code' in content`
(CodeBlock), `'html' in content` (Text, per the GraphQL selection
`... on Text { _id, html }`); the declared interface's third variant
`{_id, format}` has none of those fields and falls into the final
`else` branch, embedded here as `heading`. -/
inductive ContentBlock where
  | assets (items : List AssetItem)
  | code (_id : String) (code : String) (language : String)
  | text (_id : String) (html : String)
  | heading (_id : String) (format : Option String)
deriving DecidableEq

/-- An author as fetched from the API. -/
structure Author where
  _changed_on : String
  _id : String
  bio : String
  full_name : String
deriving DecidableEq

/-- A category as fetched from the API. -/
structure Category where
  _changed_on : String
  _id : String
  _slug : String
  title : String
deriving DecidableEq

/-- An article as fetched from the API (`PreprArticlesRes` item shape). -/
structure Article where
  _changed_on : String
  _id : String
  _slug : String
  authors : List Author
  categories : List Category
  content : List ContentBlock
  title : String
deriving DecidableEq

/-- An author entry of the node handed to `model.create`. -/
structure NodeAuthor where
  author_id : String
  bio : String
  name : String
deriving DecidableEq

/-- A category entry of the node handed to `model.create`. -/
structure NodeCategory where
  category_id : String
  slug : String
  title : String
deriving DecidableEq

/-- A normalized article node as handed to `model.create`. -/
structure ArticleNode where
  authors : List NodeAuthor
  body : String
  categories : List NodeCategory
  id : String
  slug : String
  title : String
  updated : String
deriving DecidableEq

/-- The content flattener: the `article.content.reduce` building `body` in
`syncArticles`.  An `Assets` block restarts the accumulator from `''`
(its inner reduce over the asset items ignores the outer `body`), a
`CodeBlock` appends a `<pre lang=...><code>...</code></pre>` wrapper with
the language lowercased, a `Text` block appends its raw HTML, anything
else returns the body unchanged. -/
def flattenContent (content : List ContentBlock) : String :=
  content.foldl (fun body c =>
    match c with
    | .assets items =>
        items.foldl (fun contentBody contentItem =>
          contentBody ++ "<img href=\"" ++ contentItem.url ++ "\"/>") ""
    | .code _ code language =>
        body ++ "<pre lang=" ++ toLowerCase language ++ "><code>" ++ code ++ "</code></pre>"
    | .text _ html => body ++ html
    | .heading _ _ => body) ""

/-- The article transformer: the per-article mapping inside
`model.create(allArticles.data.Articles.items.map(...))`. -/
def transformArticle (article : Article) : ArticleNode where
  authors := article.authors.map fun author =>
    { author_id := author._id, bio := author.bio, name := author.full_name }
  body := flattenContent article.content
  categories := article.categories.map fun category =>
    { category_id := category._id, slug := category._slug, title := category.title }
  id := article._id
  slug := article._slug
  title := article.title
  updated := article._changed_on

/-- A source location of a GraphQL error (`locations` entry). -/
structure GqlLocation where
  column : Nat
  line : Nat
deriving DecidableEq

/-- A GraphQL error as returned in an `errors` response. -/
structure GqlError where
  locations : List GqlLocation
  message : String
deriving DecidableEq

/-- One enumerated entry of the thrown error message: the step function of
`articlesInPage.errors.reduce` at 0-based index `i`, given the error's
first location. -/
def errorEntry (i : Nat) (e : GqlError) (loc : GqlLocation) : String :=
  "GraphQlError " ++ toString (i + 1) ++ ": " ++ e.message ++ " at "
    ++ toString loc.line ++ ":" ++ toString loc.column ++ "\n"

/-- The indexed fold of `errors.reduce`: each step reads
`currentError.locations[0]`, which in JS is `undefined` when `locations`
is empty and makes the `.line` access throw a `TypeError`; that crash is
embedded as `none`. -/
def formatErrorsGo (i : Nat) (s : String) : List GqlError → Option String
  | [] => some s
  | e :: rest =>
    match e.locations.head? with
    | some loc => formatErrorsGo (i + 1) (s ++ errorEntry i e loc) rest
    | none => none

/-- The message of the `Error` thrown when a response carries an `errors`
list: `errors.reduce` seeded with the `Received ... error(s)` header. -/
def formatErrors (errors : List GqlError) : Option String :=
  formatErrorsGo 0 ("Received " ++ toString errors.length ++ " error(s) from GraphQL:\n") errors

/-- A response to one POST of the Articles query: either
`{data: {Articles: {items, total}}}` or `{errors: [...]}`. -/
inductive FetchRes where
  | page (items : List Article) (total : Nat)
  | errors (errs : List GqlError)

/-- How one run of the recursive `fetchArticles` loop ends: `ok` with the
accumulated items, `thrown msg` for the aggregated GraphQL `Error`,
`crash` for the `TypeError` raised by `locations[0].line` on an error with
no locations, `diverge` when the supplied fuel runs out (the TS recursion
has no bound of its own). -/
inductive FetchOutcome where
  | ok (items : List Article)
  | thrown (msg : String)
  | crash
  | diverge
deriving DecidableEq

/-- The recursive `fetchArticles` loop.  The network is an input
`server : Nat → FetchRes` mapping a `skip` offset to the response of the
POST at that offset.  State threads the mutable `allArticles` record:
accumulated `items` and captured `total` (updated only while it is `0`,
i.e. from the first page).  Returns the list of `skip` offsets actually
requested, in order, together with the outcome; the loop re-requests at
`skip + 100` while `total > items.length`. -/
def fetchLoop (server : Nat → FetchRes) : Nat → List Article → Nat → Nat → List Nat × FetchOutcome
  | 0, _, _, _ => ([], .diverge)
  | fuel + 1, items, total, skip =>
    match server skip with
    | .errors errs =>
      match formatErrors errs with
      | some msg => ([skip], .thrown msg)
      | none => ([skip], .crash)
    | .page pageItems pageTotal =>
      if (items ++ pageItems).length < (if total = 0 then pageTotal else total) then
        (skip :: (fetchLoop server fuel (items ++ pageItems) (if total = 0 then pageTotal else total) (skip + 100)).1,
         (fetchLoop server fuel (items ++ pageItems) (if total = 0 then pageTotal else total) (skip + 100)).2)
      else
        ([skip], .ok (items ++ pageItems))

/-- An observable effect of the connector on its collaborators: a fetch
request (with its `skip` and `_changed_on_gte` variables), a
`model.create`, a `model.delete`, a `cache.get` or a `cache.set`. -/
inductive Effect where
  | fetchReq (skip : Nat) (updatedGte : Option String)
  | modelCreate (nodes : List ArticleNode)
  | modelDelete (id : String)
  | cacheGet (key : String)
  | cacheSet (key : String) (value : String)
deriving DecidableEq

/-- How a handler run ends: normal completion, a thrown `Error`, a
`TypeError` crash, or fuel exhaustion (embedding artifact for the
unbounded TS recursion). -/
inductive RunOutcome where
  | done
  | thrown (msg : String)
  | crash
  | diverge
deriving DecidableEq

/-- `syncArticles`: runs the fetch loop from `skip = 0` with empty
accumulator, and on success maps the accumulated articles through the
transformer into `model.create` and writes the ISO-formatted current time
(`nowIso`, the value of `formatISO(Date.now())` at this run) to the cache
key `lastSync`.  On a thrown error or crash nothing after the fetch
happens. -/
def syncArticles (server : Nat → FetchRes) (updatedGte : Option String)
    (nowIso : String) (fuel : Nat) : List Effect × RunOutcome :=
  match fetchLoop server fuel [] 0 0 with
  | (skips, .ok items) =>
    (skips.map (fun s => Effect.fetchReq s updatedGte)
      ++ [Effect.modelCreate (items.map transformArticle),
          Effect.cacheSet "lastSync" nowIso], .done)
  | (skips, .thrown msg) => (skips.map (fun s => Effect.fetchReq s updatedGte), .thrown msg)
  | (skips, .crash) => (skips.map (fun s => Effect.fetchReq s updatedGte), .crash)
  | (skips, .diverge) => (skips.map (fun s => Effect.fetchReq s updatedGte), .diverge)

/-- The `createAllNodes` event handler: full sync with no timestamp
filter (`updatedGte = null`). -/
def createAllNodes (server : Nat → FetchRes) (nowIso : String) (fuel : Nat) :
    List Effect × RunOutcome :=
  syncArticles server none nowIso fuel

/-- The payload of an `updateNodes` webhook body. -/
structure WebhookPayload where
  id : String

/-- The body of an `updateNodes` webhook. -/
structure WebhookBody where
  event : String
  payload : WebhookPayload

/-- The `updateNodes` event handler: on a `content_item.deleted` event it
deletes the single node named by the payload id; otherwise it reads the
cached `lastSync` cursor (the host cache is an input
`cache : String → Option String`, `none` standing for an unset key) and
runs an incremental sync with that cursor as the lower-bound filter. -/
def updateNodes (webhookBody : WebhookBody) (cache : String → Option String)
    (server : Nat → FetchRes) (nowIso : String) (fuel : Nat) : List Effect × RunOutcome :=
  if webhookBody.event = "content_item.deleted" then
    ([Effect.modelDelete webhookBody.payload.id], .done)
  else
    let lastSync := cache "lastSync"
    let r := syncArticles server lastSync nowIso fuel
    (Effect.cacheGet "lastSync" :: r.1, r.2)

/-- Effect of one trace entry on the host cache store: only `cacheSet`
changes it. -/
def applyEffect (store : String → Option String) : Effect → (String → Option String)
  | .cacheSet key value => fun k => if k = key then some value else store k
  | _ => store

/-- Effect of a whole trace on the host cache store. -/
def applyEffects (effects : List Effect) (store : String → Option String) :
    String → Option String :=
  effects.foldl applyEffect store

theorem applyEffect_ne_set (store : String → Option String) (e : Effect)
    (h : ∀ key value, e ≠ Effect.cacheSet key value) : applyEffect store e = store := by
  cases e <;> first | rfl | exact absurd rfl (h _ _)

theorem applyEffects_of_no_set (effects : List Effect) :
    ∀ store : String → Option String,
    (∀ e ∈ effects, ∀ key value, e ≠ Effect.cacheSet key value) →
    applyEffects effects store = store := by
  induction effects with
  | nil => intro store _; rfl
  | cons e rest ih =>
    intro store h
    simp only [applyEffects, List.foldl_cons]
    rw [applyEffect_ne_set store e (h e (List.mem_cons_self e rest))]
    exact ih store fun e' he' => h e' (List.mem_cons_of_mem _ he')

/-- C1: the claim's expected flattening of
`[asset-group{urls:[a,b]}, code{lang:"JS",code:"x"}, text{html:"<p>y</p>"}]`
is wrong on the code: with the asset-group first there is no later
asset-group to discard anything, and the code/text branches append, so the
`<img>` tags are kept.  At `a = "a"`, `b = "b"` the flattened body is
`<img href="a"/><img href="b"/><pre lang=js><code>x</code></pre><p>y</p>`,
not the claimed string. -/
theorem flatten_mixed_blocks_cex :
    flattenContent [ContentBlock.assets [⟨"i1", "Photo", "a"⟩, ⟨"i2", "Photo", "b"⟩],
        ContentBlock.code "i3" "x" "JS", ContentBlock.text "i4" "<p>y</p>"]
      ≠ "<pre lang=js><code>x</code></pre><p>y</p>" := by decide

/-- C1 (amended): for every content-block list of the form
`[asset-group{urls:[a,b]}, code{lang:"JS",code:"x"}, text{html:"<p>y</p>"}]`
the flattener produces
`<img href="a"/><img href="b"/><pre lang=js><code>x</code></pre><p>y</p>`:
the code block appends its `<pre lang=...><code>...</code></pre>` wrapper
with the language lowercased, the rich-text block appends its HTML
verbatim, and an asset-group block replaces the accumulated body so far —
which discards anything only when the asset-group comes after other
blocks, as the second conjunct states for an asset-group in last
position. -/
theorem flatten_mixed_blocks :
    (∀ a b i1 t1 i2 t2 i3 i4 : String,
      flattenContent [ContentBlock.assets [⟨i1, t1, a⟩, ⟨i2, t2, b⟩],
          ContentBlock.code i3 "x" "JS", ContentBlock.text i4 "<p>y</p>"]
        = "<img href=\"" ++ a ++ "\"/>" ++ "<img href=\"" ++ b ++ "\"/>"
            ++ "<pre lang=js><code>x</code></pre><p>y</p>") ∧
    (∀ (blocks : List ContentBlock) (items : List AssetItem),
      flattenContent (blocks ++ [ContentBlock.assets items])
        = flattenContent [ContentBlock.assets items]) := by
  constructor
  · intro a b i1 t1 i2 t2 i3 i4
    have h3 : toLowerCase "JS" = "js" := by decide
    simp [flattenContent, h3, String.empty_append, String.append_assoc]
    congr 1
  · intro blocks items
    simp [flattenContent, List.foldl_append]

/-- C8: a lone asset-group block with asset URL list `[a]` flattens to
exactly `<img href="a"/>`. -/
theorem flatten_lone_asset_group (a i t : String) :
    flattenContent [ContentBlock.assets [⟨i, t, a⟩]] = "<img href=\"" ++ a ++ "\"/>" := by
  simp [flattenContent, String.empty_append, String.append_assoc]

/-- C7: transforming an article with id `"abc"`, slug `"my-post"`, title
`"Hello"`, empty author and category lists and timestamp
`"2024-01-01T00:00:00Z"` yields a node with identical id, slug, title and
updated fields and empty author/category lists; and the transformer maps
every article list to exactly one output node per input article. -/
theorem transform_round_trip :
    (∀ content : List ContentBlock,
      transformArticle ⟨"2024-01-01T00:00:00Z", "abc", "my-post", [], [], content, "Hello"⟩
        = { authors := [], body := flattenContent content, categories := [],
            id := "abc", slug := "my-post", title := "Hello",
            updated := "2024-01-01T00:00:00Z" }) ∧
    (∀ articles : List Article, (articles.map transformArticle).length = articles.length) :=
  ⟨fun _ => rfl, fun articles => articles.length_map transformArticle⟩

/-- C6: a webhook body with event `content_item.deleted` and payload id
`x` makes the `updateNodes` handler perform exactly one `model.delete`
with id `x` (its whole effect trace is that single delete) and zero fetch
requests. -/
theorem delete_event_single_delete (x nowIso : String) (cache : String → Option String)
    (server : Nat → FetchRes) (fuel : Nat) :
    updateNodes ⟨"content_item.deleted", ⟨x⟩⟩ cache server nowIso fuel
        = ([Effect.modelDelete x], RunOutcome.done) ∧
    ∀ skip gte, Effect.fetchReq skip gte
        ∉ (updateNodes ⟨"content_item.deleted", ⟨x⟩⟩ cache server nowIso fuel).1 := by
  refine ⟨rfl, ?_⟩
  intro skip gte h
  simp [updateNodes] at h

/-- C10: on a `content_item.deleted` webhook the `updateNodes` handler
performs no cache read and no cache write, so applying its effect trace
to any cache store leaves the cached `lastSync` value unchanged. -/
theorem delete_event_cache_frame (x nowIso : String) (cache : String → Option String)
    (server : Nat → FetchRes) (fuel : Nat) :
    (∀ key, Effect.cacheGet key
        ∉ (updateNodes ⟨"content_item.deleted", ⟨x⟩⟩ cache server nowIso fuel).1) ∧
    (∀ key value, Effect.cacheSet key value
        ∉ (updateNodes ⟨"content_item.deleted", ⟨x⟩⟩ cache server nowIso fuel).1) ∧
    (∀ store : String → Option String,
      applyEffects (updateNodes ⟨"content_item.deleted", ⟨x⟩⟩ cache server nowIso fuel).1
          store "lastSync" = store "lastSync") := by
  refine ⟨?_, ?_, ?_⟩ <;> simp [updateNodes, applyEffects, applyEffect]

theorem stringJoin_cons (a : String) (l : List String) :
    String.join (a :: l) = a ++ String.join l := by
  simp only [String.join_eq, List.map_cons, List.flatten_cons]
  rfl

theorem formatErrorsGo_eq_join :
    ∀ (errs : List GqlError) (i : Nat) (s : String),
    (∀ e ∈ errs, e.locations ≠ []) →
    formatErrorsGo i s errs
      = some (s ++ String.join ((List.enumFrom i errs).map
          fun p => errorEntry p.1 p.2 (p.2.locations.headD ⟨0, 0⟩))) := by
  intro errs
  induction errs with
  | nil =>
    intro i s _
    simp [formatErrorsGo, String.join, String.append_empty]
  | cons e rest ih =>
    intro i s h
    cases hl : e.locations with
    | nil => exact absurd hl (h e (List.mem_cons_self _ _))
    | cons loc locs =>
      have ih' := ih (i + 1) (s ++ errorEntry i e loc)
        fun e' he' => h e' (List.mem_cons_of_mem _ he')
      simp only [formatErrorsGo, hl, List.head?]
      rw [ih']
      simp only [List.enumFrom, List.map_cons, stringJoin_cons, hl, List.headD]
      rw [String.append_assoc]

theorem formatErrorsGo_isSome :
    ∀ (errs : List GqlError) (i : Nat) (s : String),
    (formatErrorsGo i s errs).isSome ↔ ∀ e ∈ errs, e.locations ≠ [] := by
  intro errs
  induction errs with
  | nil => intro i s; simp [formatErrorsGo]
  | cons e rest ih =>
    intro i s
    cases hl : e.locations with
    | nil => simp [formatErrorsGo, hl, List.forall_mem_cons]
    | cons loc locs =>
      simp [formatErrorsGo, hl, ih, List.forall_mem_cons, List.head?]

theorem formatErrorsGo_take_one :
    ∀ (errs : List GqlError) (i : Nat) (s : String),
    formatErrorsGo i s (errs.map fun e => { e with locations := e.locations.take 1 })
      = formatErrorsGo i s errs := by
  intro errs
  induction errs with
  | nil => intro i s; rfl
  | cons e rest ih =>
    intro i s
    cases hl : e.locations with
    | nil => simp [formatErrorsGo, hl]
    | cons loc locs => simp [formatErrorsGo, hl, ih, List.head?, errorEntry]

/-- C3: a response whose `errors` list has the k errors `errs` (each with
at least one source location, as JS requires for `locations[0].line` not
to crash) makes the fetcher issue one request and throw an error whose
message is the `Received k error(s)` header followed by the concatenation,
in order, of one `GraphQlError i: message at line:column` entry per error,
indexed 1 through k (entry `p` of the enumeration carries 0-based index
`p.1` and prints `p.1 + 1`). -/
theorem fetch_error_message (server : Nat → FetchRes) (errs : List GqlError) (fuel : Nat)
    (h0 : 0 < fuel) (h1 : server 0 = FetchRes.errors errs)
    (h2 : ∀ e ∈ errs, e.locations ≠ []) :
    fetchLoop server fuel [] 0 0
      = ([0], FetchOutcome.thrown
          ("Received " ++ toString errs.length ++ " error(s) from GraphQL:\n"
            ++ String.join (errs.enum.map
                fun p => errorEntry p.1 p.2 (p.2.locations.headD ⟨0, 0⟩)))) := by
  obtain ⟨m, rfl⟩ : ∃ m, fuel = m + 1 := ⟨fuel - 1, by omega⟩
  have hfe : formatErrors errs
      = some ("Received " ++ toString errs.length ++ " error(s) from GraphQL:\n"
          ++ String.join (errs.enum.map
              fun p => errorEntry p.1 p.2 (p.2.locations.headD ⟨0, 0⟩))) := by
    rw [formatErrors, formatErrorsGo_eq_join errs 0 _ h2]
    rfl
  simp only [fetchLoop, h1, hfe]

/-- C3 witness: a concrete two-error response produces the two enumerated
entries. -/
theorem fetch_error_message_witness :
    0 < 1 ∧
    (∀ e ∈ [GqlError.mk [⟨5, 3⟩] "boom", GqlError.mk [⟨2, 9⟩, ⟨0, 0⟩] "bad"],
      e.locations ≠ []) ∧
    fetchLoop (fun _ => FetchRes.errors [⟨[⟨5, 3⟩], "boom"⟩, ⟨[⟨2, 9⟩, ⟨0, 0⟩], "bad"⟩]) 1 [] 0 0
      = ([0], FetchOutcome.thrown
          ("Received " ++ toString ([GqlError.mk [⟨5, 3⟩] "boom", GqlError.mk [⟨2, 9⟩, ⟨0, 0⟩] "bad"]).length
              ++ " error(s) from GraphQL:\n"
            ++ String.join (([GqlError.mk [⟨5, 3⟩] "boom", GqlError.mk [⟨2, 9⟩, ⟨0, 0⟩] "bad"]).enum.map
                fun p => errorEntry p.1 p.2 (p.2.locations.headD ⟨0, 0⟩)))) :=
  ⟨by decide, by decide,
    fetch_error_message _ _ 1 (by decide) rfl (by decide)⟩

/-- C9: the thrown-error formatter succeeds exactly when every error in
the response carries at least one location (otherwise the JS
`locations[0].line` access crashes, embedded as `none`), and it reads only
the first location of each error: truncating every location list to its
first element leaves the message unchanged, so extra locations are
omitted. -/
theorem formatErrors_first_location_only (errors : List GqlError) :
    ((formatErrors errors).isSome ↔ ∀ e ∈ errors, e.locations ≠ []) ∧
    formatErrors (errors.map fun e => { e with locations := e.locations.take 1 })
      = formatErrors errors := by
  constructor
  · exact formatErrorsGo_isSome errors 0 _
  · rw [formatErrors, formatErrors, List.length_map]
    exact formatErrorsGo_take_one errors 0 _

theorem fetchLoop_ok_pages (server : Nat → FetchRes) :
    ∀ (fuel : Nat) (items : List Article) (total skip : Nat) (finalItems : List Article),
    (fetchLoop server fuel items total skip).2 = FetchOutcome.ok finalItems →
    ∀ s ∈ (fetchLoop server fuel items total skip).1,
      ∃ pageItems pageTotal, server s = FetchRes.page pageItems pageTotal := by
  intro fuel
  induction fuel with
  | zero => intro items total skip finalItems h; simp [fetchLoop] at h
  | succ fuel ih =>
    intro items total skip finalItems h s hs
    cases hsrv : server skip with
    | errors errs =>
      simp only [fetchLoop, hsrv] at h hs
      cases hfe : formatErrors errs <;> simp [hfe] at h
    | page pageItems pageTotal =>
      simp only [fetchLoop, hsrv] at h hs
      by_cases hc : (items ++ pageItems).length < (if total = 0 then pageTotal else total)
      · rw [if_pos hc] at h hs
        rcases List.mem_cons.mp hs with rfl | hs'
        · exact ⟨pageItems, pageTotal, hsrv⟩
        · exact ih _ _ _ _ h s hs'
      · rw [if_neg hc] at hs
        rw [List.mem_singleton.mp hs]
        exact ⟨pageItems, pageTotal, hsrv⟩

theorem fetchLoop_trace_cons (server : Nat → FetchRes)
    (fuel : Nat) (items : List Article) (total skip : Nat) :
    ∃ t, (fetchLoop server (fuel + 1) items total skip).1 = skip :: t := by
  simp only [fetchLoop]
  split
  · split <;> exact ⟨_, rfl⟩
  · split <;> split <;> exact ⟨_, rfl⟩

theorem map_fetchReq_inert (skips : List Nat) (updatedGte : Option String) :
    (∀ nodes, Effect.modelCreate nodes ∉ skips.map fun s => Effect.fetchReq s updatedGte) ∧
    (∀ key value, Effect.cacheSet key value ∉ skips.map fun s => Effect.fetchReq s updatedGte) ∧
    ∀ store : String → Option String,
      applyEffects (skips.map fun s => Effect.fetchReq s updatedGte) store = store := by
  refine ⟨?_, ?_, ?_⟩
  · intro nodes h
    obtain ⟨s, _, hes⟩ := List.mem_map.mp h
    exact Effect.noConfusion hes
  · intro key value h
    obtain ⟨s, _, hes⟩ := List.mem_map.mp h
    exact Effect.noConfusion hes
  · intro store
    apply applyEffects_of_no_set
    intro e he key value heq
    obtain ⟨s, _, hes⟩ := List.mem_map.mp he
    exact Effect.noConfusion (hes.trans heq)

/-- C4: if any page response the sync actually requested carried an
`errors` list, the whole sync aborts with no partial persistence: the
effect trace contains no `model.create` and no `cache.set`, and applying
the trace to any cache store leaves it unchanged (the `lastSync` cursor in
particular). -/
theorem sync_aborts_on_errors (server : Nat → FetchRes) (updatedGte : Option String)
    (nowIso : String) (fuel : Nat)
    (h : ∃ skip errs,
      Effect.fetchReq skip updatedGte ∈ (syncArticles server updatedGte nowIso fuel).1
        ∧ server skip = FetchRes.errors errs) :
    (∀ nodes, Effect.modelCreate nodes ∉ (syncArticles server updatedGte nowIso fuel).1) ∧
    (∀ key value, Effect.cacheSet key value ∉ (syncArticles server updatedGte nowIso fuel).1) ∧
    ∀ store : String → Option String,
      applyEffects (syncArticles server updatedGte nowIso fuel).1 store = store := by
  obtain ⟨skip, errs, hmem, herr⟩ := h
  rcases hfl : fetchLoop server fuel [] 0 0 with ⟨skips, out⟩
  cases out with
  | ok items =>
    exfalso
    simp only [syncArticles, hfl] at hmem
    rcases List.mem_append.mp hmem with hmem1 | hmem2
    · obtain ⟨s, hs, hes⟩ := List.mem_map.mp hmem1
      cases hes
      obtain ⟨pi, pt, hp⟩ := fetchLoop_ok_pages server fuel [] 0 0 items
        (by rw [hfl]) skip (by rw [hfl]; exact hs)
      rw [herr] at hp
      exact FetchRes.noConfusion hp
    · simp at hmem2
  | thrown msg =>
    have htr : (syncArticles server updatedGte nowIso fuel).1
        = skips.map fun s => Effect.fetchReq s updatedGte := by
      simp [syncArticles, hfl]
    rw [htr]
    exact map_fetchReq_inert skips updatedGte
  | crash =>
    have htr : (syncArticles server updatedGte nowIso fuel).1
        = skips.map fun s => Effect.fetchReq s updatedGte := by
      simp [syncArticles, hfl]
    rw [htr]
    exact map_fetchReq_inert skips updatedGte
  | diverge =>
    have htr : (syncArticles server updatedGte nowIso fuel).1
        = skips.map fun s => Effect.fetchReq s updatedGte := by
      simp [syncArticles, hfl]
    rw [htr]
    exact map_fetchReq_inert skips updatedGte

/-- C4 witness: a server answering the first request with one GraphQL
error; the sync's only effect is that fetch request. -/
theorem sync_aborts_on_errors_witness :
    (∃ skip errs,
      Effect.fetchReq skip none
          ∈ (syncArticles (fun _ => FetchRes.errors [⟨[⟨1, 2⟩], "boom"⟩]) none "T" 1).1
        ∧ (fun _ => FetchRes.errors [⟨[⟨1, 2⟩], "boom"⟩] : Nat → FetchRes) skip
            = FetchRes.errors errs) ∧
    ((∀ nodes, Effect.modelCreate nodes
        ∉ (syncArticles (fun _ => FetchRes.errors [⟨[⟨1, 2⟩], "boom"⟩]) none "T" 1).1) ∧
     (∀ key value, Effect.cacheSet key value
        ∉ (syncArticles (fun _ => FetchRes.errors [⟨[⟨1, 2⟩], "boom"⟩]) none "T" 1).1) ∧
     ∀ store : String → Option String,
       applyEffects (syncArticles (fun _ => FetchRes.errors [⟨[⟨1, 2⟩], "boom"⟩]) none "T" 1).1 store
         = store) :=
  ⟨⟨0, [⟨[⟨1, 2⟩], "boom"⟩], by decide, rfl⟩,
    sync_aborts_on_errors _ none "T" 1 ⟨0, [⟨[⟨1, 2⟩], "boom"⟩], by decide, rfl⟩⟩

theorem syncArticles_parts (server : Nat → FetchRes) (gte : Option String)
    (nowIso : String) (fuel : Nat) (h : 0 < fuel) :
    (∃ rest, (syncArticles server gte nowIso fuel).1 = Effect.fetchReq 0 gte :: rest) ∧
    ((syncArticles server gte nowIso fuel).2 = RunOutcome.done →
      Effect.cacheSet "lastSync" nowIso ∈ (syncArticles server gte nowIso fuel).1) ∧
    (∀ key value, Effect.cacheSet key value ∈ (syncArticles server gte nowIso fuel).1 →
      key = "lastSync" ∧ value = nowIso) := by
  obtain ⟨m, rfl⟩ : ∃ m, fuel = m + 1 := ⟨fuel - 1, by omega⟩
  obtain ⟨t, ht⟩ := fetchLoop_trace_cons server m [] 0 0
  rcases hfl : fetchLoop server (m + 1) [] 0 0 with ⟨skips, out⟩
  rw [hfl] at ht
  have ht' : skips = 0 :: t := ht
  subst ht'
  cases out with
  | ok items =>
    refine ⟨⟨(t.map fun s => Effect.fetchReq s gte)
        ++ [Effect.modelCreate (items.map transformArticle),
            Effect.cacheSet "lastSync" nowIso], ?_⟩, ?_, ?_⟩
    · simp [syncArticles, hfl]
    · intro _
      simp [syncArticles, hfl]
    · intro key value hm
      simp only [syncArticles, hfl] at hm
      rcases List.mem_append.mp hm with hm1 | hm2
      · obtain ⟨s, _, hes⟩ := List.mem_map.mp hm1
        exact Effect.noConfusion hes
      · rcases List.mem_cons.mp hm2 with heq | hm3
        · exact Effect.noConfusion heq
        · have heq := List.mem_singleton.mp hm3
          injection heq with hk hv
          exact ⟨hk, hv⟩
  | thrown msg =>
    refine ⟨⟨t.map fun s => Effect.fetchReq s gte, by simp [syncArticles, hfl]⟩, ?_, ?_⟩
    · intro hdone
      simp [syncArticles, hfl] at hdone
    · intro key value hm
      simp only [syncArticles, hfl] at hm
      obtain ⟨s, _, hes⟩ := List.mem_map.mp hm
      exact Effect.noConfusion hes
  | crash =>
    refine ⟨⟨t.map fun s => Effect.fetchReq s gte, by simp [syncArticles, hfl]⟩, ?_, ?_⟩
    · intro hdone
      simp [syncArticles, hfl] at hdone
    · intro key value hm
      simp only [syncArticles, hfl] at hm
      obtain ⟨s, _, hes⟩ := List.mem_map.mp hm
      exact Effect.noConfusion hes
  | diverge =>
    refine ⟨⟨t.map fun s => Effect.fetchReq s gte, by simp [syncArticles, hfl]⟩, ?_, ?_⟩
    · intro hdone
      simp [syncArticles, hfl] at hdone
    · intro key value hm
      simp only [syncArticles, hfl] at hm
      obtain ⟨s, _, hes⟩ := List.mem_map.mp hm
      exact Effect.noConfusion hes

/-- C5: the claim's "new timestamp strictly later than the prior one" is
false on the code: `cache.set('lastSync', formatISO(Date.now()))` never
compares with the prior value, and `formatISO` has second precision, so a
sync completing with the same clock reading writes a value equal to the
prior cursor.  Concretely: with the cursor cached as
`2024-01-01T00:00:00+00:00` and the clock formatting to that same string,
an incremental sync succeeds and overwrites the cursor with the identical
value — not a strictly later one. -/
theorem cursor_not_strictly_later_cex :
    updateNodes ⟨"content_item.published", ⟨"x"⟩⟩
        (fun k => if k = "lastSync" then some "2024-01-01T00:00:00+00:00" else none)
        (fun _ => FetchRes.page [] 0) "2024-01-01T00:00:00+00:00" 1
      = ([Effect.cacheGet "lastSync",
          Effect.fetchReq 0 (some "2024-01-01T00:00:00+00:00"),
          Effect.modelCreate [],
          Effect.cacheSet "lastSync" "2024-01-01T00:00:00+00:00"], RunOutcome.done) ∧
    (fun k => if k = "lastSync" then some "2024-01-01T00:00:00+00:00" else none) "lastSync"
      = some "2024-01-01T00:00:00+00:00" := by
  constructor <;> rfl

/-- C5 (amended): on a non-deletion webhook the handler first reads the
cached `lastSync` cursor and passes it verbatim (unmodified) as the
`_changed_on_gte` bound of the first fetch request; after a successful
sync — incremental (`updateNodes`) or full (`createAllNodes`) — the
cursor is overwritten with the ISO-formatted current time `nowIso`, and
with no other value; that time need not be strictly later than the prior
cursor. -/
theorem incremental_cursor (webhookBody : WebhookBody) (cache : String → Option String)
    (server : Nat → FetchRes) (nowIso : String) (fuel : Nat)
    (h1 : webhookBody.event ≠ "content_item.deleted") (h2 : 0 < fuel) :
    (∃ rest, (updateNodes webhookBody cache server nowIso fuel).1
        = Effect.cacheGet "lastSync" :: Effect.fetchReq 0 (cache "lastSync") :: rest) ∧
    ((updateNodes webhookBody cache server nowIso fuel).2 = RunOutcome.done →
      Effect.cacheSet "lastSync" nowIso ∈ (updateNodes webhookBody cache server nowIso fuel).1) ∧
    (∀ key value,
      Effect.cacheSet key value ∈ (updateNodes webhookBody cache server nowIso fuel).1 →
      key = "lastSync" ∧ value = nowIso) ∧
    ((createAllNodes server nowIso fuel).2 = RunOutcome.done →
      Effect.cacheSet "lastSync" nowIso ∈ (createAllNodes server nowIso fuel).1) := by
  obtain ⟨⟨rest, hrest⟩, hdone, huniq⟩ := syncArticles_parts server (cache "lastSync") nowIso fuel h2
  obtain ⟨_, hdoneFull, _⟩ := syncArticles_parts server none nowIso fuel h2
  have hupd : updateNodes webhookBody cache server nowIso fuel
      = (Effect.cacheGet "lastSync" :: (syncArticles server (cache "lastSync") nowIso fuel).1,
         (syncArticles server (cache "lastSync") nowIso fuel).2) := by
    simp [updateNodes, h1]
  refine ⟨⟨rest, ?_⟩, ?_, ?_, hdoneFull⟩
  · rw [hupd]
    simp [hrest]
  · intro hd
    rw [hupd] at hd
    rw [hupd]
    exact List.mem_cons_of_mem _ (hdone hd)
  · intro key value hm
    rw [hupd] at hm
    rcases List.mem_cons.mp hm with heq | hm'
    · exact Effect.noConfusion heq
    · exact huniq key value hm'

/-- C5 witness: a concrete non-deletion webhook run with cached cursor
`T0`, an empty page response and clock `T1`. -/
theorem incremental_cursor_witness :
    (WebhookBody.mk "content_item.published" ⟨"x"⟩).event ≠ "content_item.deleted" ∧
    0 < 1 ∧
    ((∃ rest, (updateNodes ⟨"content_item.published", ⟨"x"⟩⟩
          (fun k => if k = "lastSync" then some "T0" else none)
          (fun _ => FetchRes.page [] 0) "T1" 1).1
        = Effect.cacheGet "lastSync"
          :: Effect.fetchReq 0 ((fun k => if k = "lastSync" then some "T0" else none) "lastSync")
          :: rest) ∧
     ((updateNodes ⟨"content_item.published", ⟨"x"⟩⟩
          (fun k => if k = "lastSync" then some "T0" else none)
          (fun _ => FetchRes.page [] 0) "T1" 1).2 = RunOutcome.done →
       Effect.cacheSet "lastSync" "T1" ∈ (updateNodes ⟨"content_item.published", ⟨"x"⟩⟩
          (fun k => if k = "lastSync" then some "T0" else none)
          (fun _ => FetchRes.page [] 0) "T1" 1).1) ∧
     (∀ key value,
       Effect.cacheSet key value ∈ (updateNodes ⟨"content_item.published", ⟨"x"⟩⟩
          (fun k => if k = "lastSync" then some "T0" else none)
          (fun _ => FetchRes.page [] 0) "T1" 1).1 →
       key = "lastSync" ∧ value = "T1") ∧
     ((createAllNodes (fun _ => FetchRes.page [] 0) "T1" 1).2 = RunOutcome.done →
       Effect.cacheSet "lastSync" "T1" ∈ (createAllNodes (fun _ => FetchRes.page [] 0) "T1" 1).1)) :=
  ⟨by decide, by decide,
    incremental_cursor ⟨"content_item.published", ⟨"x"⟩⟩
      (fun k => if k = "lastSync" then some "T0" else none)
      (fun _ => FetchRes.page [] 0) "T1" 1 (by decide) (by decide)⟩

theorem fetchLoop_pages_count (server : Nat → FetchRes) (pageOf : Nat → List Article) (N : Nat)
    (hserver : ∀ s, server s = FetchRes.page (pageOf s) N)
    (hlen : ∀ s, (pageOf s).length = min 100 (N - s)) :
    ∀ (fuel j : Nat) (items : List Article) (total : Nat),
    items.length = 100 * j → 100 * j < N → N ≤ 100 * j + 100 * fuel →
    (total = 0 ∨ total = N) →
    ∃ finalItems,
      fetchLoop server fuel items total (100 * j)
        = ((List.range ((N - 100 * j + 99) / 100)).map fun k => 100 * (j + k),
           FetchOutcome.ok finalItems)
      ∧ finalItems.length = N := by
  intro fuel
  induction fuel with
  | zero => intro j items total h1 h2 h3 h4; omega
  | succ fuel ih =>
    intro j items total h1 h2 h3 h4
    have htot : (if total = 0 then N else total) = N := by
      rcases h4 with h | h
      · simp [h]
      · rw [h]; split <;> omega
    have hlen1 : (items ++ pageOf (100 * j)).length = 100 * j + min 100 (N - 100 * j) := by
      simp [List.length_append, h1, hlen]
    simp only [fetchLoop, hserver (100 * j), htot]
    by_cases hc : N ≤ 100 * j + 100
    · have hfin : (items ++ pageOf (100 * j)).length = N := by omega
      rw [hfin, if_neg (lt_irrefl N)]
      refine ⟨items ++ pageOf (100 * j), ?_, hfin⟩
      have hr : (N - 100 * j + 99) / 100 = 1 := by omega
      rw [hr]
      simp [List.range_succ]
    · push_neg at hc
      have hlen2 : (items ++ pageOf (100 * j)).length = 100 * (j + 1) := by omega
      have hcond : (items ++ pageOf (100 * j)).length < N := by omega
      rw [if_pos hcond]
      have hskip : 100 * j + 100 = 100 * (j + 1) := by ring
      obtain ⟨fin, hrec, hfinlen⟩ :=
        ih (j + 1) (items ++ pageOf (100 * j)) N hlen2 (by omega) (by omega) (Or.inr rfl)
      rw [hskip, hrec]
      refine ⟨fin, ?_, hfinlen⟩
      have hr : (N - 100 * j + 99) / 100 = (N - 100 * (j + 1) + 99) / 100 + 1 := by omega
      have hfun : (fun k => 100 * (j + 1 + k)) = (fun k => 100 * (j + k)) ∘ Nat.succ := by
        funext k
        simp only [Function.comp]
        omega
      rw [hr, List.range_succ_eq_map, List.map_cons, List.map_map, ← hfun]
      simp

/-- C2: the claim fails at N = 0: `ceil(0/100) = 0`, but the fetcher
always issues its first request before seeing any total, so a server
reporting total 0 still receives one request. -/
theorem fetch_pagination_cex :
    (fetchLoop (fun _ => FetchRes.page [] 0) 1 [] 0 0).1 = [0] ∧
    (fetchLoop (fun _ => FetchRes.page [] 0) 1 [] 0 0).2 = FetchOutcome.ok [] ∧
    (0 + 99) / 100 = 0 :=
  ⟨rfl, rfl, rfl⟩

/-- C2 (amended): for a server whose every page response reports total `N`
and returns `min 100 (N - skip)` items at offset `skip`, the fetcher
issues exactly `max 1 ⌈N/100⌉` requests — `⌈N/100⌉` when `N ≥ 1`, but one
(not zero) when `N = 0` — at offsets `0, 100, 200, ...`, each subsequent
request 100 past the previous; the accumulated item list, complete only
once its length reaches the reported total, has length `N`. -/
theorem fetch_pagination (server : Nat → FetchRes) (pageOf : Nat → List Article) (N : Nat)
    (hserver : ∀ s, server s = FetchRes.page (pageOf s) N)
    (hlen : ∀ s, (pageOf s).length = min 100 (N - s)) :
    ∃ finalItems,
      fetchLoop server (max 1 ((N + 99) / 100)) [] 0 0
        = ((List.range (max 1 ((N + 99) / 100))).map fun k => 100 * k,
           FetchOutcome.ok finalItems)
      ∧ finalItems.length = N := by
  by_cases hN : N = 0
  · subst hN
    have hmax : max 1 ((0 + 99) / 100) = 1 := by decide
    rw [hmax]
    have hp0 : (pageOf 0).length = 0 := by
      have := hlen 0
      simpa using this
    refine ⟨pageOf 0, ?_, hp0⟩
    simp only [fetchLoop, hserver 0]
    simp [hp0, List.range_succ]
  · have hmax : max 1 ((N + 99) / 100) = (N + 99) / 100 := by
      have h1 : 1 ≤ (N + 99) / 100 := by omega
      omega
    obtain ⟨fin, heq, hlenf⟩ := fetchLoop_pages_count server pageOf N hserver hlen
      ((N + 99) / 100) 0 [] 0 rfl (by omega) (by omega) (Or.inl rfl)
    rw [hmax]
    refine ⟨fin, ?_, hlenf⟩
    have h0 : (100 : Nat) * 0 = 0 := rfl
    rw [h0] at heq
    rw [Nat.sub_zero] at heq
    have hfun0 : (fun k => 100 * (0 + k)) = fun k : Nat => 100 * k := by
      funext k
      omega
    rw [hfun0] at heq
    exact heq

/-- C2 witness: a server with 250 articles served in pages of
100, 100, 50; three requests at offsets 0, 100, 200 and 250 items. -/
theorem fetch_pagination_witness :
    (∀ s, (fun s => FetchRes.page (List.replicate (min 100 (250 - s)) ⟨"t", "i", "s", [], [], [], "ti"⟩) 250 : Nat → FetchRes) s
        = FetchRes.page ((fun s => List.replicate (min 100 (250 - s)) (⟨"t", "i", "s", [], [], [], "ti"⟩ : Article)) s) 250) ∧
    (∀ s, ((fun s => List.replicate (min 100 (250 - s)) (⟨"t", "i", "s", [], [], [], "ti"⟩ : Article)) s).length = min 100 (250 - s)) ∧
    ∃ finalItems,
      fetchLoop (fun s => FetchRes.page (List.replicate (min 100 (250 - s)) ⟨"t", "i", "s", [], [], [], "ti"⟩) 250)
          (max 1 ((250 + 99) / 100)) [] 0 0
        = ((List.range (max 1 ((250 + 99) / 100))).map fun k => 100 * k, FetchOutcome.ok finalItems)
      ∧ finalItems.length = 250 :=
  ⟨fun s => rfl, fun s => List.length_replicate _ _,
    fetch_pagination _ _ 250 (fun s => rfl) (fun s => List.length_replicate _ _)⟩
